import Mathlib

/-!
# Verification of the `_redirects` file parser and matcher

A shallow embedding of `redirects.go` (package `redirects`): the Netlify-style
`_redirects` rule parser (`Parse` and its helpers `parseFrom`, `parseTo`,
`parseFromQuery`, `isLikelyStatusCode`, `parseStatus`, `isValidStatusCode`)
and the per-rule matcher (`MatchAndExpandPlaceholders`, `replacePlaceholders`,
`matchParams`).

Strings are modelled as lists of characters (`Str`).  Byte counts (the 64 KiB
input bound is in bytes) are computed from the UTF-8 width of each character.
Fallible Go functions returning `(T, error)` become `Except`; the out-of-range
slice access reachable in `Parse`'s status-error branch is modelled as an
explicit `panicked` outcome.  Go maps (`Rule.FromQuery`, `url.Values`, the
placeholder map) are modelled as association lists; where Go iterates a map
(whose iteration order the language does not specify) the model iterates the
list in its own order, and the development is explicit about the places where
that order matters.
-/

set_option autoImplicit false

namespace Redirects

/-- Character-list strings: the Go `string` type, viewed as its decoded runes. -/
abbrev Str := List Char

/-- Convenience coercion from Lean string literals. -/
def str (s : String) : Str := s.data

/-- UTF-8 byte width of one rune, as Go's `len(string(c))` computes it. -/
def charBytes (c : Char) : Nat :=
  if c.toNat < 0x80 then 1
  else if c.toNat < 0x800 then 2
  else if c.toNat < 0x10000 then 3
  else 4

/-- Total UTF-8 byte length of a string, Go's `len(s)`. -/
def byteSize (s : Str) : Nat :=
  s.foldr (fun c n => charBytes c + n) 0

theorem charBytes_pos (c : Char) : 0 < charBytes c := by
  unfold charBytes; split <;> [omega; skip]; split <;> [omega; skip]; split <;> omega

@[simp] theorem byteSize_nil : byteSize [] = 0 := rfl

@[simp] theorem byteSize_cons (c : Char) (s : Str) :
    byteSize (c :: s) = charBytes c + byteSize s := rfl

theorem byteSize_append (s t : Str) : byteSize (s ++ t) = byteSize s + byteSize t := by
  induction s with
  | nil => simp
  | cons c cs ih => simp [ih]; omega

theorem length_le_byteSize (s : Str) : s.length ≤ byteSize s := by
  induction s with
  | nil => simp
  | cons c cs ih => have := charBytes_pos c; simp; omega

/-- The whitespace predicate of Go's `unicode.IsSpace`, used by
`strings.TrimSpace` and `strings.Fields`. -/
def isSpace (c : Char) : Bool :=
  c = ' ' || c = '\t' || c = '\n' || (c.toNat = 0x0B) || (c.toNat = 0x0C) || c = '\r' ||
  (c.toNat = 0x85) || (c.toNat = 0xA0) || (c.toNat = 0x1680) ||
  (0x2000 ≤ c.toNat && c.toNat ≤ 0x200A) ||
  (c.toNat = 0x2028) || (c.toNat = 0x2029) || (c.toNat = 0x202F) ||
  (c.toNat = 0x205F) || (c.toNat = 0x3000)

/-- Go `strings.TrimSpace`: drop leading and trailing whitespace. -/
def trimSpace (s : Str) : Str :=
  ((s.dropWhile isSpace).reverse.dropWhile isSpace).reverse

/-- Worker for `strFields`: `cur` holds the current field, reversed. -/
def fieldsAux : Str → Str → List Str
  | [], cur => if cur = [] then [] else [cur.reverse]
  | c :: cs, cur =>
    if isSpace c then
      if cur = [] then fieldsAux cs [] else cur.reverse :: fieldsAux cs []
    else fieldsAux cs (c :: cur)

/-- Go `strings.Fields`: split around runs of whitespace, dropping empty fields. -/
def strFields (s : Str) : List Str := fieldsAux s []

/-- Worker for `splitOn`. -/
def splitOnAux (sep : Char) : Str → Str → List Str
  | [], cur => [cur.reverse]
  | c :: cs, cur =>
    if c = sep then cur.reverse :: splitOnAux sep cs []
    else splitOnAux sep cs (c :: cur)

/-- Go `strings.Split` with a one-character separator. -/
def splitOn (sep : Char) (s : Str) : List Str := splitOnAux sep s []

/-- Join segments with `/` between them (how `urlpath` rebuilds the trailing path). -/
def joinSlash : List Str → Str
  | [] => []
  | [s] => s
  | s :: rest => s ++ '/' :: joinSlash rest

/-- Go `strings.TrimSuffix s "/"`: remove one trailing slash if present. -/
def trimSuffixSlash (s : Str) : Str :=
  if s.getLast? = some '/' then s.dropLast else s

/-- Fuel-driven worker for `replaceAll`; the fuel is an upper bound on the
length of the string still to scan, so the translation stays structurally
recursive (and kernel-reducible). -/
def replaceAllAux (pat rep : Str) : Nat → Str → Str
  | _, [] => []
  | 0, s => s
  | fuel + 1, c :: cs =>
    if pat.isPrefixOf (c :: cs) ∧ pat ≠ [] then
      rep ++ replaceAllAux pat rep fuel ((c :: cs).drop pat.length)
    else
      c :: replaceAllAux pat rep fuel cs

/-- Go `strings.ReplaceAll s pat rep` for a non-empty pattern (every pattern
used by the source is `":" + name`, hence non-empty): replace non-overlapping
occurrences left to right. -/
def replaceAll (s pat rep : Str) : Str :=
  replaceAllAux pat rep s.length s

/-- Association-list lookup (Go map read `m[k]`). -/
def lookupA {α : Type} : List (Str × α) → Str → Option α
  | [], _ => none
  | (k, v) :: rest, key => if k = key then some v else lookupA rest key

/-- Association-list insert-or-overwrite (Go map write `m[k] = v`). -/
def insertA {α : Type} : List (Str × α) → Str → α → List (Str × α)
  | [], key, v => [(key, v)]
  | (k, w) :: rest, key, v =>
    if k = key then (key, v) :: rest else (k, w) :: insertA rest key v

/-- Decimal digit test (`\d` of the status regexp, `strconv.Atoi` digits). -/
def isDigit (c : Char) : Bool := '0' ≤ c && c ≤ '9'

/-- Hexadecimal digit test (for `%XX` escapes). -/
def isHex (c : Char) : Bool :=
  isDigit c || ('a' ≤ c && c ≤ 'f') || ('A' ≤ c && c ≤ 'F')

/-- Numeric value of a digit string (the core of `strconv.Atoi` on the
all-digit strings the status grammar admits). -/
def digitsVal (s : Str) : Nat :=
  s.foldl (fun n c => n * 10 + (c.toNat - '0'.toNat)) 0

/-- Go `strconv.Atoi`, restricted to the unsigned shapes reachable from
`parseStatus` (its argument always matches `^\d{1,3}$` there; signs and
overflow are unreachable). -/
def atoi (s : Str) : Except Unit Nat :=
  if s ≠ [] ∧ s.all isDigit then .ok (digitsVal s) else .error ()

/-! ## A model of the `net/url` checks the parser relies on

`parseFrom`, `parseTo` and `parseFromQuery` call into Go's `net/url`
(`url.Parse`, `url.ParseQuery`, `url.QueryEscape`).  That package is outside
this repository; the fragments below model exactly the checks the source
depends on: whether `url.Parse` succeeds, the parsed scheme, query-string
splitting/unescaping, and `QueryEscape` idempotence. -/

/-- ASCII control bytes rejected by `url.Parse` ("invalid control character"). -/
def isCtl (c : Char) : Bool := c.toNat < 0x20 || c.toNat = 0x7F

/-- Every `%` is followed by two hexadecimal digits (the escape validation
`url.Parse` applies when it unescapes a URL component). -/
def validEscapes : Str → Bool
  | [] => true
  | '%' :: c1 :: c2 :: rest => isHex c1 && isHex c2 && validEscapes rest
  | '%' :: _ => false
  | _ :: rest => validEscapes rest

/-- Model of "`url.Parse s` succeeds".  `url.Parse` rejects control
characters anywhere, a leading `:` (missing protocol scheme), and invalid
`%`-escapes in the components it unescapes (path and fragment; the raw query
is not validated).  Escaping subtleties specific to the host subcomponent are
not modelled; no rule-file field the claims exercise has a host with escapes. -/
def urlParseOk (s : Str) : Bool :=
  let frag := (s.dropWhile (fun c => c ≠ '#')).drop 1
  let pre := s.takeWhile (fun c => c ≠ '#')
  let path := pre.takeWhile (fun c => c ≠ '?')
  s.all (fun c => !isCtl c) && s.head? ≠ some ':' &&
    validEscapes path && validEscapes frag

/-- Lower-case an ASCII letter (Go's `getScheme` lower-cases the scheme). -/
def asciiLower (c : Char) : Char :=
  if 'A' ≤ c ∧ c ≤ 'Z' then Char.ofNat (c.toNat + 32) else c

/-- Scheme-character test: first character a letter, then letters, digits,
`+`, `-`, `.` — as in `net/url`'s `getScheme`. -/
def isSchemeChar (first : Bool) (c : Char) : Bool :=
  ('a' ≤ c && c ≤ 'z') || ('A' ≤ c && c ≤ 'Z') ||
  (!first && (isDigit c || c = '+' || c = '-' || c = '.'))

/-- Model of `url.Parse(s).Scheme`: the lower-cased prefix before the first
`:` when that prefix is a well-formed scheme, otherwise the empty string
(`net/url` treats a malformed scheme prefix as no scheme at all). -/
def getScheme (s : Str) : Str :=
  let candidate := s.takeWhile (fun c => c ≠ ':')
  if candidate.length = s.length then []       -- no ':' at all
  else match candidate with
    | [] => []
    | c0 :: rest =>
      if isSchemeChar true c0 && rest.all (isSchemeChar false) then
        (c0 :: rest).map asciiLower
      else []

/-- Numeric value of a hexadecimal digit. -/
def hexVal (c : Char) : Nat :=
  if isDigit c then c.toNat - '0'.toNat
  else if 'a' ≤ c ∧ c ≤ 'f' then c.toNat - 'a'.toNat + 10
  else c.toNat - 'A'.toNat + 10

/-- Fuel-driven worker for `queryUnescape`: decode `%XX` escapes and `+` as
space, failing on malformed escapes.  An unescaped byte is modelled as the
character with that code point (exact for the ASCII data the rule grammar
accepts; Go assembles raw bytes). -/
def queryUnescapeAux : Nat → Str → Except Unit Str
  | _, [] => .ok []
  | 0, _ => .error ()
  | fuel + 1, c :: rest =>
    if c = '%' then
      match rest with
      | c1 :: c2 :: rest' =>
        if isHex c1 && isHex c2 then
          match queryUnescapeAux fuel rest' with
          | .ok out => .ok (Char.ofNat (16 * hexVal c1 + hexVal c2) :: out)
          | .error e => .error e
        else .error ()
      | _ => .error ()
    else if c = '+' then
      match queryUnescapeAux fuel rest with
      | .ok out => .ok (' ' :: out)
      | .error e => .error e
    else
      match queryUnescapeAux fuel rest with
      | .ok out => .ok (c :: out)
      | .error e => .error e

/-- Go `url.QueryUnescape`. -/
def queryUnescape (s : Str) : Except Unit Str :=
  queryUnescapeAux s.length s

/-- Go `strings.Cut`: split at the first occurrence of `sep`; the `Bool`
reports whether the separator was found. -/
def cutOn (sep : Char) (s : Str) : Str × Str × Bool :=
  let before := s.takeWhile (fun c => c ≠ sep)
  let rest := s.dropWhile (fun c => c ≠ sep)
  match rest with
  | [] => (before, [], false)
  | _ :: after => (before, after, true)

/-- Append a value to a key's list in `url.Values`, creating the key if
needed (`m[key] = append(m[key], value)`). -/
def valuesAdd : List (Str × List Str) → Str → Str → List (Str × List Str)
  | [], key, v => [(key, [v])]
  | (k, vs) :: rest, key, v =>
    if k = key then (k, vs ++ [v]) :: rest else (k, vs) :: valuesAdd rest key v

/-- Fuel-driven worker for `parseQuery`, one `&`-separated segment per step. -/
def parseQueryAux : Nat → Str → List (Str × List Str) → Except Unit (List (Str × List Str))
  | _, [], acc => .ok acc
  | 0, _, _ => .error ()
  | fuel + 1, s, acc =>
    let (seg, rest, _) := cutOn '&' s
    if seg.contains ';' then .error ()
    else if seg = [] then parseQueryAux fuel rest acc
    else
      let (rawKey, rawVal, _) := cutOn '=' seg
      match queryUnescape rawKey with
      | .error _ => .error ()
      | .ok key =>
        match queryUnescape rawVal with
        | .error _ => .error ()
        | .ok val => parseQueryAux fuel rest (valuesAdd acc key val)

/-- Model of Go `url.ParseQuery`: split on `&`, reject `;`, unescape keys and
values.  Go records the first error but keeps scanning; since the only caller
(`parseFromQuery`) discards the partial map whenever the error is non-nil,
aborting at the first error is observationally the same here. -/
def parseQuery (s : Str) : Except Unit (List (Str × List Str)) :=
  parseQueryAux (s.length + 1) s []

/-- Characters `url.QueryEscape` leaves unchanged. -/
def isUnreservedQuery (c : Char) : Bool :=
  ('a' ≤ c && c ≤ 'z') || ('A' ≤ c && c ≤ 'Z') || isDigit c ||
  c = '-' || c = '_' || c = '.' || c = '~'

/-- Model of the check `url.QueryEscape(s) == s`: true exactly when every
character survives escaping unchanged. -/
def queryEscapeInvariant (s : Str) : Bool :=
  s.all isUnreservedQuery

/-! ## The `Rule` data type and the parser -/

/-- A single redirection or rewrite rule (`type Rule struct`).  `FromQuery`
is Go's `map[string]string`, modelled as an association list with distinct
keys; a `nil` map (no query constraints) is the empty list. -/
structure Rule where
  From : Str
  FromQuery : List (Str × Str) := []
  To : Str
  Status : Nat
  deriving DecidableEq, Repr

/-- `(r *Rule) IsRewrite`. -/
def Rule.IsRewrite (r : Rule) : Bool := r.Status = 200

/-- Errors of `parseFrom` (its distinct `fmt.Errorf`/`url.Parse` messages). -/
inductive FromErr
  | splatNotAtEnd     -- "path must end with asterisk"
  | multipleSplats    -- "path can have at most one asterisk"
  | urlParse          -- error propagated from url.Parse
  | noLeadingSlash    -- "path must begin with '/'"
  deriving DecidableEq, Repr

/-- Errors of `parseTo`. -/
inductive ToErr
  | urlParse          -- error propagated from url.Parse
  | scheme            -- "invalid URL scheme"
  deriving DecidableEq, Repr

/-- Errors of `parseFromQuery`. -/
inductive QueryErr
  | queryParse        -- error propagated from url.ParseQuery
  | notSingleKey      -- len(params) != 1
  | multipleValues    -- len(val) > 1
  | keyNotEscaped     -- "fromQuery key must be URL encoded"
  | valNotEscaped     -- "fromQuery val must be URL encoded"
  deriving DecidableEq, Repr

/-- Errors of `parseStatus`. -/
inductive StatusErr
  | forced            -- forced redirects ("shadowing") are not supported
  | atoiFailed        -- error propagated from strconv.Atoi
  | unsupported (code : Nat)  -- "status code %d is not supported"
  deriving DecidableEq, Repr

/-- The distinct error returns of `Parse`.  `parsingStatus` carries the
field the `errors.Wrapf` format string interpolates (`fields[2]`).
`tokenTooLong` is `bufio.ErrTooLong`, which `Parse` returns through the
final `err = s.Err()` check after `Scan` fails on a line of
`bufio.MaxScanTokenSize` (64 KiB) or more bytes with no newline among
them. -/
inductive ParseErr
  | tooLarge                               -- "redirects file size cannot exceed %d bytes"
  | missingTo                              -- "missing 'to' path"
  | parsingFrom (e : FromErr)              -- wrapped "parsing 'from'"
  | parsingTo (e : ToErr)                  -- wrapped "parsing 'to'"
  | parsingStatus (field2 : Str) (e : StatusErr)  -- wrapped "parsing status %q", fields[2]
  | parsingFromQuery (e : QueryErr)        -- wrapped "parsing 'fromQuery'"
  | tokenTooLong                           -- bufio.ErrTooLong, surfaced via s.Err()
  deriving DecidableEq, Repr

/-- `func parseFrom(s string) (string, error)`.  `s.countP (· = '*')` is
`strings.Count(s, "*")`; the two splat checks are nested under `fromSplats >
0` in Go, which is equivalent to the sequential tests here. -/
def parseFrom (s : Str) : Except FromErr Str :=
  if s.countP (fun c => c = '*') > 0 ∧ s.getLast? ≠ some '*' then .error .splatNotAtEnd
  else if s.countP (fun c => c = '*') > 1 then .error .multipleSplats
  else if ¬ urlParseOk s then .error .urlParse
  else if s.head? ≠ some '/' then .error .noLeadingSlash
  else .ok s

/-- `func parseTo(s string) (string, error)`: a path, or a URL whose scheme
is safelisted. -/
def parseTo (s : Str) : Except ToErr Str :=
  if ¬ urlParseOk s then .error .urlParse
  else if s.head? ≠ some '/' then
    let sch := getScheme s
    if sch ≠ str "http" ∧ sch ≠ str "https" ∧ sch ≠ str "ipfs" ∧ sch ≠ str "ipns" then
      .error .scheme
    else .ok s
  else .ok s

/-- `func isPlaceholder(s string) bool`. -/
def isPlaceholder (s : Str) : Bool := s.head? = some ':'

/-- `func parseFromQuery(s string) (string, string, error)`. -/
def parseFromQuery (s : Str) : Except QueryErr (Str × Str) :=
  match parseQuery s with
  | .error _ => .error .queryParse
  | .ok params =>
    if params.length ≠ 1 then .error .notSingleKey
    else
      let key := (params.getD 0 ([], [])).1
      let val := (params.getD 0 ([], [])).2
      if ¬ queryEscapeInvariant key then .error .keyNotEscaped
      else if val.length > 1 then .error .multipleValues
      else
        let v0 := val.getD 0 []
        let ignorePlaceholders := if isPlaceholder v0 then v0.drop 1 else v0
        if ¬ queryEscapeInvariant ignorePlaceholders then .error .valNotEscaped
        else .ok (key, v0)

/-- `isLikelyStatusCode`: the regexp `^\d{1,3}!?$`. -/
def isLikelyStatusCode (s : Str) : Bool :=
  let core := if s.getLast? = some '!' then s.dropLast else s
  1 ≤ core.length && core.length ≤ 3 && core.all isDigit

/-- `func isValidStatusCode(status int) bool`. -/
def isValidStatusCode (status : Nat) : Bool :=
  status = 200 || status = 301 || status = 302 || status = 303 ||
  status = 307 || status = 308 || status = 404 || status = 410 || status = 451

/-- `func parseStatus(s string) (code int, err error)`. -/
def parseStatus (s : Str) : Except StatusErr Nat :=
  if s.getLast? = some '!' then .error .forced
  else match atoi s with
    | .error _ => .error .atoiFailed
    | .ok code =>
      if ¬ isValidStatusCode code then .error (.unsupported code)
      else .ok code

/-- The `for i := 1; i < toIndex; i++` loop of `Parse`: fold the query fields
into the `FromQuery` map (duplicate keys overwrite, last occurrence wins). -/
def buildFromQuery : List Str → List (Str × Str) → Except QueryErr (List (Str × Str))
  | [], m => .ok m
  | f :: fs, m =>
    match parseFromQuery f with
    | .error e => .error e
    | .ok (key, value) => buildFromQuery fs (insertA m key value)

/-- Outcome of processing one scanned line inside `Parse`'s loop. -/
inductive LineResult
  | skip                      -- empty line or comment
  | rule (r : Rule)           -- a parsed rule, appended to the output
  | fail (e : ParseErr)       -- a returned parse error
  | outOfRange                -- an out-of-range slice index (a Go panic)
  deriving DecidableEq, Repr

/-- The status sniff `hasStatus := isLikelyStatusCode(fields[len(fields)-1])`. -/
def hasStatusF (fields : List Str) : Bool :=
  isLikelyStatusCode (fields.getD (fields.length - 1) [])

/-- The computed destination index: `len(fields)-2` when the last field was
sniffed as a status token, `len(fields)-1` otherwise. -/
def toIndexF (fields : List Str) : Nat :=
  if hasStatusF fields then fields.length - 2 else fields.length - 1

/-- The status stage of `Parse`'s loop body.  On a `parseStatus` error the
wrap `errors.Wrapf(err, "parsing status %q", fields[2])` reads `fields[2]`;
the read is modelled by an explicit bounds check whose failure is the
`outOfRange` outcome (in Go it is an index-out-of-range panic).  Without a
sniffed status token the implicit status is 301. -/
def statusStage (fields : List Str) : Except LineResult Nat :=
  if hasStatusF fields then
    match parseStatus (fields.getD (fields.length - 1) []) with
    | .error e =>
      match fields.get? 2 with
      | some f2 => .error (.fail (.parsingStatus f2 e))
      | none => .error .outOfRange
    | .ok code => .ok code
  else .ok 301

/-- The fromQuery stage of `Parse`'s loop body: fields strictly between
index 0 and the destination index, parsed into the `FromQuery` map when any
exist (`if toIndex > 1`). -/
def queryStage (fields : List Str) : Except QueryErr (List (Str × Str)) :=
  if toIndexF fields > 1 then
    buildFromQuery ((fields.drop 1).take (toIndexF fields - 1)) []
  else .ok []

/-- The field-level stages of `Parse`'s loop body, in source order: the
minimum field count, `parseFrom` on field 0, `parseTo` on the computed
destination index, the status stage, and the fromQuery stage. -/
def processFields (fields : List Str) : LineResult :=
  if fields.length ≤ 1 then .fail .missingTo
  else
    match parseFrom (fields.getD 0 []) with
    | .error e => .fail (.parsingFrom e)
    | .ok fromPath =>
      match parseTo (fields.getD (toIndexF fields) []) with
      | .error e => .fail (.parsingTo e)
      | .ok toPath =>
        match statusStage fields with
        | .error res => res
        | .ok status =>
          match queryStage fields with
          | .error e => .fail (.parsingFromQuery e)
          | .ok fq =>
            .rule { From := fromPath, FromQuery := fq, To := toPath, Status := status }

/-- The body of `Parse`'s scan loop for one line (everything after the size
check): trim, skip blanks and comments, split into whitespace-separated
fields and run `processFields`. -/
def processLine (tok : Str) : LineResult :=
  if trimSpace tok = [] then .skip
  else if (trimSpace tok).head? = some '#' then .skip
  else processFields (strFields (trimSpace tok))

/-- Result of `Parse`: the rule list, an error, or a Go panic.  `fuelOut` is
an artifact of the fuel-driven loop and is unreachable for the fuel `Parse`
supplies. -/
inductive ParseResult
  | ok (rules : List Rule)
  | err (e : ParseErr)
  | outOfRange
  | fuelOut
  deriving DecidableEq, Repr

/-- Non-newline test, the token boundary of `bufio.ScanLines`. -/
def notNewline (c : Char) : Bool := c ≠ '\n'

/-- One `bufio.Scanner` line read: the token up to (not including) the first
newline, the number of bytes consumed from the reader (token plus newline),
and the unread remainder. -/
def consumeToken (rest : Str) : Str × Nat × Str :=
  let tok := rest.takeWhile notNewline
  match rest.dropWhile notNewline with
  | [] => (tok, byteSize tok, [])
  | _ :: rs => (tok, byteSize tok + 1, rs)

/-- `bufio.MaxScanTokenSize` (64 KiB): the scanner's buffer never grows
past this, so a token needing this many bytes buffered at once is never
delivered — `Scan` fails with `bufio.ErrTooLong` instead. -/
def MaxScanTokenSize : Nat := 65536

/-- The scan loop of `Parse`.  `budget` is the `io.LimitedReader`'s remaining
byte allowance `limiter.N` (initially `MaxFileSizeInBytes + 1`); the loop
checks `limiter.N <= 0` after each successful scan, before the line is
examined.

Scanner failure: `bufio.Scanner` buffers at most `MaxScanTokenSize` bytes of
an undelivered token.  If the next `MaxScanTokenSize` bytes the limited
reader can serve contain no newline — at least that many non-newline bytes
lie ahead (`MaxScanTokenSize ≤ byteSize (takeWhile notNewline)`) and the
limiter can still serve that many (`MaxScanTokenSize ≤ budget`) — the buffer
fills before a token or EOF is seen, `Scan` fails with `ErrTooLong`, the
loop body never runs for that token, and `Parse` returns the scanner error
through `s.Err()`.  When fewer bytes remain in the limited stream, EOF is
reached instead and the remainder is delivered as the final token.

The model charges the reader per delivered line; `bufio` reads ahead in
chunks, which can only make `limiter.N` reach zero at an earlier line — the
same order of checks applies either way, and no claim distinguishes the two
accountings. -/
def parseLoop : Nat → Str → Nat → List Rule → ParseResult
  | 0, _, _, _ => .fuelOut
  | _ + 1, [], _, rules => .ok rules
  | fuel + 1, c :: cs, budget, rules =>
    if MaxScanTokenSize ≤ byteSize ((c :: cs).takeWhile notNewline) ∧
        MaxScanTokenSize ≤ budget then .err .tokenTooLong
    else if budget - (consumeToken (c :: cs)).2.1 = 0 then .err .tooLarge
    else
      match processLine (consumeToken (c :: cs)).1 with
      | .skip =>
        parseLoop fuel (consumeToken (c :: cs)).2.2 (budget - (consumeToken (c :: cs)).2.1) rules
      | .rule r =>
        parseLoop fuel (consumeToken (c :: cs)).2.2 (budget - (consumeToken (c :: cs)).2.1)
          (rules ++ [r])
      | .fail e => .err e
      | .outOfRange => .outOfRange

/-- 64 KiB: `const MaxFileSizeInBytes = 65536`. -/
def MaxFileSizeInBytes : Nat := 65536

/-- How one line's outcome surfaces as a whole-parse result when the line is
the only content of the input. -/
def liftLine : LineResult → ParseResult
  | .skip => .ok []
  | .rule r => .ok [r]
  | .fail e => .err e
  | .outOfRange => .outOfRange

/-- Whether an error came from the `fromQuery` stage (used to state that a
line is rejected before its middle field is ever treated as query syntax). -/
def isFromQueryErr : ParseErr → Bool
  | .parsingFromQuery _ => true
  | _ => false

/-- A parse outcome that is an error and did not come from the `fromQuery`
stage. -/
def isNonQueryParseError : ParseResult → Bool
  | .err e => !isFromQueryErr e
  | _ => false

/-- Whether a parse outcome is the dedicated size error. -/
def isTooLargeErr : ParseResult → Bool
  | .err .tooLarge => true
  | _ => false

/-- Whether a parse outcome is a successful rule list. -/
def isOkResult : ParseResult → Bool
  | .ok _ => true
  | _ => false

/-- `func Parse(r io.Reader) (rules []Rule, err error)` applied to a string
reader, i.e. `ParseString`.  `strings.Reader` itself never yields a read
error, so the only error the final `err = s.Err()` check can report is the
scanner's own `bufio.ErrTooLong` (the `tokenTooLong` branch of the loop).
The fuel is one more than the reader budget: every loop iteration consumes
at least one budgeted byte, so the loop always ends before the fuel does —
`fuelOut` is unreachable (see `Parse_ne_fuelOut`). -/
def Parse (input : Str) : ParseResult :=
  parseLoop (MaxFileSizeInBytes + 2) input (MaxFileSizeInBytes + 1) []

/-! ## The matcher

`MatchAndExpandPlaceholders` delegates path matching to the external
dependency `github.com/ucarion/urlpath`, which is not part of this
repository.  `urlpathMatch` below is therefore modelled from the spec:
"Match `request_path` against the normalized template: each `:name` segment
binds `name` to the corresponding path segment; a trailing `*` binds the
reserved name `splat` to the remaining trailing path (including any slashes);
exact literal segments must match byte-for-byte."  Both sides are split on
`/`; a repeated `:name` leaves the last segment's value in the binding map
(the repository's own test `Repeated placeholder in path` pins this down). -/

/-- The result of a `urlpath` match: named-segment bindings and the path
remainder captured by a trailing `*`. -/
structure UrlMatch where
  Params : List (Str × Str)
  Trailing : Str
  deriving DecidableEq, Repr

/-- Modelled from the spec: segment-wise matching for `urlpath`.  A template
segment starting with `:` binds the rest of its name to the path segment
(later bindings of the same name overwrite); any other segment must be equal
byte-for-byte. -/
def matchSegs : List Str → List Str → List (Str × Str) → Option (List (Str × Str))
  | [], [], params => some params
  | t :: ts, p :: ps, params =>
    if t.head? = some ':' then matchSegs ts ps (insertA params (t.drop 1) p)
    else if t = p then matchSegs ts ps params
    else none
  | _, _, _ => none

/-- Modelled from the spec: `urlpath.New(tmpl).Match(path)`.  When the
template's final segment is `*`, the leading segments must match and the rest
of the path (joined back with `/`) is the `Trailing` capture; otherwise the
segment lists must have equal length and match pairwise. -/
def urlpathMatch (tmpl path : Str) : Option UrlMatch :=
  let ts := splitOn '/' tmpl
  let ps := splitOn '/' path
  if ts.getLast? = some ['*'] then
    let pre := ts.dropLast
    if ps.length < pre.length then none
    else
      match matchSegs pre (ps.take pre.length) [] with
      | none => none
      | some params => some ⟨params, joinSlash (ps.drop pre.length)⟩
  else
    if ts.length ≠ ps.length then none
    else
      match matchSegs ts ps [] with
      | none => none
      | some params => some ⟨params, []⟩

/-- `func replacePlaceholders(to string, placeholders map[string]string)`:
substitute `":" + key` by the bound value for every binding.  Go iterates the
map in unspecified order; the model folds over the association list in list
order. -/
def replacePlaceholders (toStr : Str) (placeholders : List (Str × Str)) : Str :=
  placeholders.foldl (fun acc kv => replaceAll acc (':' :: kv.1) kv.2) toStr

/-- `func contains(arr []string, s string) bool`. -/
def strListContains (arr : List Str) (s : Str) : Bool :=
  arr.any (fun a => a = s)

/-- `func matchParams(fromQuery map[string]string, urlParams url.Values,
placeholders map[string]string) bool`, returning the updated placeholder map
instead of mutating it.  The `fromQuery` list order stands for Go's
(unspecified) map iteration order.  `haveVs.getD 0 []` is Go's `haveVs[0]`;
`url.Values` built by `url.ParseQuery` never maps a key to an empty slice, so
the default is never taken on the reachable inputs. -/
def matchParams (fromQuery : List (Str × Str)) (urlParams : List (Str × List Str))
    (placeholders : List (Str × Str)) : Option (List (Str × Str)) :=
  match fromQuery with
  | [] => some placeholders
  | (neededK, neededV) :: rest =>
    match lookupA urlParams neededK with
    | none => none
    | some haveVs =>
      if isPlaceholder neededV then
        let name := neededV.drop 1
        let placeholders' :=
          if (lookupA placeholders name).isSome then placeholders
          else insertA placeholders name (haveVs.getD 0 [])
        matchParams rest urlParams placeholders'
      else
        if strListContains haveVs neededV then matchParams rest urlParams placeholders
        else none

/-- `func (r *Rule) MatchAndExpandPlaceholders(urlPath string, urlParams
url.Values) bool`.  The Go method mutates `r.To` on success; the model
returns the match flag together with the rule as it stands after the call. -/
def MatchAndExpandPlaceholders (r : Rule) (urlPath : Str)
    (urlParams : List (Str × List Str)) : Bool × Rule :=
  let fromPath := trimSuffixSlash r.From
  match urlpathMatch fromPath urlPath with
  | none => (false, r)
  | some m =>
    let placeholders := insertA m.Params (str "splat") m.Trailing
    match matchParams r.FromQuery urlParams placeholders with
    | none => (false, r)
    | some ph =>
      let toPath := replacePlaceholders r.To ph
      if toPath.contains ':' then (false, r)
      else (true, { r with To := toPath })

/-! ## Scanner infrastructure lemmas -/

theorem takeWhile_append_single (p : Char → Bool) (l : Str) (c : Char)
    (h : ∀ x ∈ l, p x = true) (hc : p c = false) :
    (l ++ [c]).takeWhile p = l := by
  induction l with
  | nil => simp [hc]
  | cons a as ih =>
    have ha : p a = true := h a (by simp)
    simp only [List.cons_append, List.takeWhile_cons, ha, if_true]
    rw [ih (fun x hx => h x (by simp [hx]))]

theorem dropWhile_append_single (p : Char → Bool) (l : Str) (c : Char)
    (h : ∀ x ∈ l, p x = true) (hc : p c = false) :
    (l ++ [c]).dropWhile p = [c] := by
  induction l with
  | nil => simp [List.dropWhile, hc]
  | cons a as ih =>
    have ha : p a = true := h a (by simp)
    simp only [List.cons_append, List.dropWhile_cons, ha, if_true]
    exact ih (fun x hx => h x (by simp [hx]))

theorem dropWhile_head_false (p : Char → Bool) (l : Str) (c : Char) (cs : Str)
    (h : l.dropWhile p = c :: cs) : p c = false := by
  induction l with
  | nil => simp at h
  | cons a as ih =>
    rw [List.dropWhile_cons] at h
    by_cases hp : p a = true
    · exact ih (by simpa [hp] using h)
    · rw [if_neg hp] at h
      injection h with h1 h2
      subst h1
      simpa using hp

/-- Scanning one token consumes exactly its bytes (plus one for the newline
separator when one was present). -/
theorem consumeToken_bytes (rest : Str) :
    byteSize rest = (consumeToken rest).2.1 + byteSize (consumeToken rest).2.2 := by
  unfold consumeToken
  have hsplit : rest.takeWhile notNewline ++ rest.dropWhile notNewline = rest :=
    List.takeWhile_append_dropWhile notNewline rest
  cases hdrop : rest.dropWhile notNewline with
  | nil =>
    rw [hdrop] at hsplit
    simp only [List.append_nil] at hsplit
    simp only [hdrop]
    conv_lhs => rw [← hsplit]
    simp
  | cons d ds =>
    have hd : notNewline d = false := dropWhile_head_false _ rest d ds hdrop
    have hd' : d = '\n' := by
      unfold notNewline at hd
      simpa using hd
    rw [hdrop] at hsplit
    simp only [hdrop]
    conv_lhs => rw [← hsplit]
    rw [byteSize_append, hd']
    have hnl : charBytes '\n' = 1 := by decide
    simp [hnl]
    omega

/-- An error produced by the status stage is either the modelled
out-of-range access or a wrapped status error. -/
theorem statusStage_error_shape (fields : List Str) (res : LineResult)
    (h : statusStage fields = .error res) :
    res = .outOfRange ∨ ∃ f2 e, res = .fail (.parsingStatus f2 e) := by
  unfold statusStage at h
  split at h
  · split at h
    · split at h
      · injection h with h'
        exact .inr ⟨_, _, h'.symm⟩
      · injection h with h'
        exact .inl h'.symm
    · cases h
  · cases h

/-- The per-line stages can fail in many ways, but never with the size
error: that error is issued only by the loop's budget check. -/
theorem processFields_no_tooLarge (fields : List Str) :
    processFields fields ≠ .fail .tooLarge := by
  intro h
  unfold processFields at h
  split at h
  · simp at h
  · split at h
    · simp at h
    · split at h
      · simp at h
      · split at h
        · rename_i res heq
          subst h
          rcases statusStage_error_shape _ _ heq with h1 | ⟨f2, e, h1⟩ <;> simp at h1
        · split at h <;> simp at h

/-- Same, lifted over the blank/comment dispatch. -/
theorem processLine_no_tooLarge (tok : Str) :
    processLine tok ≠ .fail .tooLarge := by
  intro h
  unfold processLine at h
  split at h
  · simp at h
  · split at h
    · simp at h
    · exact processFields_no_tooLarge _ h

/-- Go's scan loop never reports the size error when the whole remaining
input fits strictly below the reader budget. -/
theorem parseLoop_no_tooLarge (fuel : Nat) :
    ∀ (rest : Str) (budget : Nat) (rules : List Rule),
      byteSize rest < budget →
      parseLoop fuel rest budget rules ≠ .err .tooLarge := by
  induction fuel with
  | zero => intro rest budget rules _ h; simp [parseLoop] at h
  | succ fuel ih =>
    intro rest budget rules hlt h
    match rest with
    | [] => simp [parseLoop] at h
    | c :: cs =>
      rw [parseLoop] at h
      by_cases htl : MaxScanTokenSize ≤ byteSize ((c :: cs).takeWhile notNewline) ∧
          MaxScanTokenSize ≤ budget
      · rw [if_pos htl] at h; cases h
      · rw [if_neg htl] at h
        have hbytes := consumeToken_bytes (c :: cs)
        have hb' : budget - (consumeToken (c :: cs)).2.1 ≠ 0 := by omega
        rw [if_neg hb'] at h
        have hlt' : byteSize (consumeToken (c :: cs)).2.2 <
            budget - (consumeToken (c :: cs)).2.1 := by omega
        cases hpl : processLine (consumeToken (c :: cs)).1 with
        | skip =>
          rw [hpl] at h
          exact ih _ _ rules hlt' h
        | rule r =>
          rw [hpl] at h
          exact ih _ _ (rules ++ [r]) hlt' h
        | fail e =>
          rw [hpl] at h
          cases h
          exact processLine_no_tooLarge _ hpl
        | outOfRange => rw [hpl] at h; exact absurd h (by simp)

/-- When the reader budget is no larger than the bytes still unread, the
scan loop can never run to a successful completion: the budget check fires
(or some line fails) first. -/
theorem parseLoop_no_ok (fuel : Nat) :
    ∀ (rest : Str) (budget : Nat) (rules out : List Rule),
      1 ≤ budget → budget ≤ byteSize rest →
      parseLoop fuel rest budget rules ≠ .ok out := by
  induction fuel with
  | zero => intro rest budget rules out _ _ h; simp [parseLoop] at h
  | succ fuel ih =>
    intro rest budget rules out h1 h2 h
    match rest with
    | [] =>
      rw [byteSize_nil] at h2
      omega
    | c :: cs =>
      rw [parseLoop] at h
      by_cases htl : MaxScanTokenSize ≤ byteSize ((c :: cs).takeWhile notNewline) ∧
          MaxScanTokenSize ≤ budget
      · rw [if_pos htl] at h; cases h
      · rw [if_neg htl] at h
        by_cases hb : budget - (consumeToken (c :: cs)).2.1 = 0
        · rw [if_pos hb] at h; cases h
        · rw [if_neg hb] at h
          have hbytes := consumeToken_bytes (c :: cs)
          have h1' : 1 ≤ budget - (consumeToken (c :: cs)).2.1 := by omega
          have h2' : budget - (consumeToken (c :: cs)).2.1 ≤
              byteSize (consumeToken (c :: cs)).2.2 := by omega
          cases hpl : processLine (consumeToken (c :: cs)).1 with
          | skip => rw [hpl] at h; exact ih _ _ rules out h1' h2' h
          | rule r => rw [hpl] at h; exact ih _ _ (rules ++ [r]) out h1' h2' h
          | fail e => rw [hpl] at h; cases h
          | outOfRange => rw [hpl] at h; cases h

/-- Reading a line from a non-empty stream always consumes at least one
byte (the token's bytes, or the newline of an empty line). -/
theorem consumeToken_consumed_pos (c : Char) (cs : Str) :
    1 ≤ (consumeToken (c :: cs)).2.1 := by
  unfold consumeToken
  cases hdrop : (c :: cs).dropWhile notNewline with
  | nil =>
    simp only
    have htk : (c :: cs).takeWhile notNewline = c :: cs := by
      have hsplit := List.takeWhile_append_dropWhile notNewline (c :: cs)
      rw [hdrop, List.append_nil] at hsplit
      exact hsplit
    rw [htk, byteSize_cons]
    have := charBytes_pos c
    omega
  | cons d ds =>
    simp only
    omega

/-- The loop's fuel outlasts its budget: with one more unit of fuel than
budget, the `fuelOut` artifact is unreachable. -/
theorem parseLoop_ne_fuelOut (fuel : Nat) :
    ∀ (rest : Str) (budget : Nat) (rules : List Rule),
      1 ≤ budget → budget ≤ fuel →
      parseLoop fuel rest budget rules ≠ .fuelOut := by
  induction fuel with
  | zero => intro rest budget rules h1 h2 _; omega
  | succ fuel ih =>
    intro rest budget rules h1 h2 h
    match rest with
    | [] => rw [parseLoop] at h; cases h
    | c :: cs =>
      rw [parseLoop] at h
      by_cases htl : MaxScanTokenSize ≤ byteSize ((c :: cs).takeWhile notNewline) ∧
          MaxScanTokenSize ≤ budget
      · rw [if_pos htl] at h; cases h
      · rw [if_neg htl] at h
        by_cases hbz : budget - (consumeToken (c :: cs)).2.1 = 0
        · rw [if_pos hbz] at h; cases h
        · rw [if_neg hbz] at h
          have hcp := consumeToken_consumed_pos c cs
          cases hpl : processLine (consumeToken (c :: cs)).1 with
          | skip => rw [hpl] at h; exact ih _ _ rules (by omega) (by omega) h
          | rule r => rw [hpl] at h; exact ih _ _ _ (by omega) (by omega) h
          | fail e => rw [hpl] at h; cases h
          | outOfRange => rw [hpl] at h; cases h

/-- The fuel in `Parse` is sufficient for every input. -/
theorem Parse_ne_fuelOut (input : Str) : Parse input ≠ .fuelOut := by
  unfold Parse MaxFileSizeInBytes
  exact parseLoop_ne_fuelOut _ _ _ _ (by omega) (by omega)

/-- Reading one line from a single-line input (no interior newline) yields
that whole line and consumes its bytes plus the terminating newline. -/
theorem consumeToken_single_line (l : Str) (hn : ('\n' : Char) ∉ l) :
    consumeToken (l ++ ['\n']) = (l, byteSize l + 1, []) := by
  have hp : ∀ x ∈ l, notNewline x = true := by
    intro x hx
    unfold notNewline
    simp only [decide_eq_true_eq]
    exact fun hc => hn (hc ▸ hx)
  have hc : notNewline '\n' = false := by decide
  unfold consumeToken
  rw [takeWhile_append_single notNewline l '\n' hp hc,
    dropWhile_append_single notNewline l '\n' hp hc]

/-- Parsing a single newline-terminated line that fits the size budget is
exactly the per-line processing of that line. -/
theorem Parse_single_line (l : Str) (hn : ('\n' : Char) ∉ l)
    (hb : byteSize l ≤ 65535) :
    Parse (l ++ ['\n']) = liftLine (processLine l) := by
  have hct := consumeToken_single_line l hn
  have hp : ∀ x ∈ l, notNewline x = true := by
    intro x hx
    unfold notNewline
    simp only [decide_eq_true_eq]
    exact fun hc => hn (hc ▸ hx)
  have htk : (l ++ ['\n']).takeWhile notNewline = l :=
    takeWhile_append_single notNewline l '\n' hp (by decide)
  obtain ⟨c, cs, hl⟩ : ∃ c cs, l ++ ['\n'] = c :: cs := by
    cases l with
    | nil => exact ⟨'\n', [], rfl⟩
    | cons a as => exact ⟨a, as ++ ['\n'], rfl⟩
  unfold Parse MaxFileSizeInBytes
  rw [hl] at hct htk ⊢
  rw [show (65536 + 2 : Nat) = 65537 + 1 from rfl]
  rw [parseLoop]
  have htl : ¬(MaxScanTokenSize ≤ byteSize ((c :: cs).takeWhile notNewline) ∧
      MaxScanTokenSize ≤ 65536 + 1) := by
    intro hcontra
    rw [htk] at hcontra
    unfold MaxScanTokenSize at hcontra
    omega
  rw [if_neg htl, hct]
  simp only
  have hbne : 65536 + 1 - (byteSize l + 1) ≠ 0 := by omega
  rw [if_neg hbne]
  cases hpl : processLine l with
  | skip => rfl
  | rule r => rfl
  | fail e => rfl
  | outOfRange => rfl

/-! ## Shape lemmas for the per-field validators -/

theorem parseFrom_ok (s f : Str) (h : parseFrom s = .ok f) :
    f = s ∧ s.head? = some '/' ∧ urlParseOk s = true := by
  unfold parseFrom at h
  split at h
  · cases h
  · split at h
    · cases h
    · split at h
      · cases h
      · split at h
        · cases h
        · rename_i hurl hslash
          injection h with h'
          refine ⟨h'.symm, by simpa using hslash, by simpa using hurl⟩

/-- A string accepted by `parseFrom` is also accepted verbatim by `parseTo`
(it starts with `/`, so the scheme safelist is not consulted, and the
`url.Parse` check already passed). -/
theorem parseFrom_ok_parseTo (s f : Str) (h : parseFrom s = .ok f) :
    parseTo s = .ok s := by
  obtain ⟨-, hslash, hurl⟩ := parseFrom_ok s f h
  unfold parseTo
  rw [if_neg (by simp [hurl]), if_neg (by simp [hslash])]

theorem parseStatus_ok (s : Str) (c : Nat) (h : parseStatus s = .ok c) :
    isValidStatusCode c = true := by
  unfold parseStatus at h
  split at h
  · cases h
  · split at h
    · cases h
    · split at h
      · cases h
      · rename_i hvalid
        injection h with h'
        subst h'
        simpa using hvalid

theorem statusStage_ok (fields : List Str) (code : Nat)
    (h : statusStage fields = .ok code) : isValidStatusCode code = true := by
  unfold statusStage at h
  split at h
  · split at h
    · split at h <;> cases h
    · rename_i c heq
      injection h with h'
      subst h'
      exact parseStatus_ok _ _ heq
  · injection h with h'
    subst h'
    decide

/-- A rule emitted by the field stages has a supported status and a `from`
path starting with `/`. -/
theorem processFields_rule_inv (fields : List Str) (r : Rule)
    (h : processFields fields = .rule r) :
    isValidStatusCode r.Status = true ∧ r.From.head? = some '/' := by
  unfold processFields at h
  split at h
  · cases h
  · split at h
    · cases h
    · rename_i fromPath heqFrom
      split at h
      · cases h
      · split at h
        · rename_i res heqStat
          rcases statusStage_error_shape _ _ heqStat with h1 | ⟨f2, e, h1⟩ <;> subst h1 <;> cases h
        · split at h
          · cases h
          · injection h with h'
            subst h'
            obtain ⟨heqf, hslash, -⟩ := parseFrom_ok _ _ heqFrom
            refine ⟨statusStage_ok _ _ (by assumption), ?_⟩
            show fromPath.head? = some '/'
            rw [heqf]
            exact hslash

theorem processLine_rule_inv (tok : Str) (r : Rule)
    (h : processLine tok = .rule r) :
    isValidStatusCode r.Status = true ∧ r.From.head? = some '/' := by
  unfold processLine at h
  split at h
  · cases h
  · split at h
    · cases h
    · exact processFields_rule_inv _ _ h

/-- Invariant propagation through the scan loop: every rule in a successful
parse either came in with the accumulator or was built by a line stage. -/
theorem parseLoop_ok_inv (fuel : Nat) :
    ∀ (rest : Str) (budget : Nat) (rules out : List Rule),
      (∀ r ∈ rules, isValidStatusCode r.Status = true ∧ r.From.head? = some '/') →
      parseLoop fuel rest budget rules = .ok out →
      ∀ r ∈ out, isValidStatusCode r.Status = true ∧ r.From.head? = some '/' := by
  induction fuel with
  | zero => intro rest budget rules out _ h; cases h
  | succ fuel ih =>
    intro rest budget rules out hacc h
    match rest with
    | [] =>
      rw [parseLoop] at h
      injection h with h'
      subst h'
      exact hacc
    | c :: cs =>
      rw [parseLoop] at h
      by_cases htl : MaxScanTokenSize ≤ byteSize ((c :: cs).takeWhile notNewline) ∧
          MaxScanTokenSize ≤ budget
      · rw [if_pos htl] at h; cases h
      · rw [if_neg htl] at h
        by_cases hbz : budget - (consumeToken (c :: cs)).2.1 = 0
        · rw [if_pos hbz] at h; cases h
        · rw [if_neg hbz] at h
          cases hpl : processLine (consumeToken (c :: cs)).1 with
          | skip => rw [hpl] at h; exact ih _ _ rules out hacc h
          | rule r =>
            rw [hpl] at h
            refine ih _ _ (rules ++ [r]) out ?_ h
            intro r' hr'
            rcases List.mem_append.mp hr' with hmem | hmem
            · exact hacc r' hmem
            · rw [List.mem_singleton.mp hmem]
              exact processLine_rule_inv _ _ hpl
          | fail e => rw [hpl] at h; cases h
          | outOfRange => rw [hpl] at h; cases h

/-! ## Lines, fields and the comment check -/

theorem fieldsAux_first_head (s : Str) :
    ∀ (acc f : Str) (rest : List Str), acc ≠ [] → fieldsAux s acc = f :: rest →
      f.head? = acc.getLast? := by
  induction s with
  | nil =>
    intro acc f rest hacc h
    unfold fieldsAux at h
    rw [if_neg hacc] at h
    injection h with h1 h2
    subst h1
    exact List.head?_reverse acc
  | cons a as ih =>
    intro acc f rest hacc h
    unfold fieldsAux at h
    by_cases hsp : isSpace a = true
    · rw [if_pos hsp, if_neg hacc] at h
      injection h with h1 h2
      subst h1
      exact List.head?_reverse acc
    · rw [if_neg hsp] at h
      have hthis := ih (a :: acc) f rest (by simp) h
      cases acc with
      | nil => exact absurd rfl hacc
      | cons b bs => rwa [List.getLast?_cons_cons] at hthis

theorem trimSpace_head_not_space (l : Str) (c : Char) (cs : Str)
    (h : trimSpace l = c :: cs) : isSpace c = false := by
  unfold trimSpace at h
  have hsuf : ((l.dropWhile isSpace).reverse.dropWhile isSpace).IsSuffix
      (l.dropWhile isSpace).reverse := List.dropWhile_suffix _
  obtain ⟨t, ht⟩ := hsuf
  have hd : l.dropWhile isSpace =
      ((l.dropWhile isSpace).reverse.dropWhile isSpace).reverse ++ t.reverse := by
    have h2 := congrArg List.reverse ht
    simpa [List.reverse_append] using h2.symm
  rw [h] at hd
  exact dropWhile_head_false isSpace l c (cs ++ t.reverse) (by simpa using hd)

/-- The first whitespace-separated field of a trimmed line starts with the
line's first character. -/
theorem trimmed_fields_head (l : Str) (f : Str) (rest : List Str)
    (h : strFields (trimSpace l) = f :: rest) :
    (trimSpace l).head? = f.head? := by
  cases hm : trimSpace l with
  | nil =>
    rw [hm] at h
    exact absurd h (by simp [strFields, fieldsAux])
  | cons c cs =>
    have hns : isSpace c = false := trimSpace_head_not_space l c cs hm
    rw [hm] at h
    unfold strFields fieldsAux at h
    rw [if_neg (by simp [hns])] at h
    have hh := fieldsAux_first_head cs [c] f rest (by simp) h
    simp only [List.getLast?_singleton] at hh
    simp [hh]

/-- A line whose fields are known and whose first field does not start with
`#` is processed by the field stages (it is neither blank nor a comment). -/
theorem processLine_of_fields (l : Str) (f : Str) (rest : List Str)
    (hfields : strFields (trimSpace l) = f :: rest)
    (hcm : f.head? ≠ some '#') :
    processLine l = processFields (f :: rest) := by
  have hm : trimSpace l ≠ [] := by
    intro h0
    rw [h0] at hfields
    exact absurd hfields (by simp [strFields, fieldsAux])
  have hhead := trimmed_fields_head l f rest hfields
  unfold processLine
  rw [if_neg hm, if_neg (by rw [hhead]; exact hcm), hfields]

/-! ## Claim C9: amended theorem -/

/-- C9 (amended): for every 2-field line whose first field passes the `from`
validation and whose second field is sniffed as a status token and parses to
a supported status code, `Parse` reports no missing-destination error: it
emits one rule whose `To` equals its `From` (the computed destination index
falls on field 0) with the given status and no query constraints. -/
theorem c9_two_field_supported_status (l f st : Str) (code : Nat)
    (hn : ('\n' : Char) ∉ l) (hb : byteSize l ≤ 65535)
    (hfields : strFields (trimSpace l) = [f, st])
    (hfrom : parseFrom f = .ok f)
    (hstat : isLikelyStatusCode st = true)
    (hcode : parseStatus st = .ok code) :
    Parse (l ++ ['\n']) =
      .ok [{ From := f, FromQuery := [], To := f, Status := code }] := by
  have hslash := (parseFrom_ok f f hfrom).2.1
  have hcm : f.head? ≠ some '#' := by rw [hslash]; simp
  have hto : parseTo f = .ok f := parseFrom_ok_parseTo f f hfrom
  have hhs : hasStatusF [f, st] = true := hstat
  have hti : toIndexF [f, st] = 0 := by simp [toIndexF, hhs]
  have hgl : ([f, st] : List Str).getD (([f, st] : List Str).length - 1) [] = st := rfl
  have hss : statusStage [f, st] = .ok code := by
    unfold statusStage
    rw [if_pos hhs, hgl]
    simp only [hcode]
  have hqs : queryStage [f, st] = .ok [] := by
    unfold queryStage
    rw [hti]
    rfl
  have hpf : processFields [f, st] =
      .rule { From := f, FromQuery := [], To := f, Status := code } := by
    unfold processFields
    rw [if_neg (by simp)]
    have hg0 : ([f, st] : List Str).getD 0 [] = f := rfl
    rw [hti]
    simp only [hg0, hfrom, hto, hss, hqs]
  rw [Parse_single_line l hn hb, processLine_of_fields l f [st] hfields hcm, hpf]
  rfl

theorem c9_witness :
    Parse (str "/a 404" ++ ['\n']) =
      .ok [{ From := str "/a", FromQuery := [], To := str "/a", Status := 404 }] :=
  c9_two_field_supported_status (str "/a 404") (str "/a") (str "404") 404
    (by decide) (by decide) (by decide) rfl (by decide) rfl

/-! ## Claim C2: amended theorem -/

/-- C2 (amended): a non-comment 3-field line whose third field neither looks
like a status token nor passes the destination validation is rejected with
an error raised before the fromQuery stage runs, and the outcome does not
depend on the middle field: two such lines differing only in their middle
field produce the identical (non-fromQuery) parse error. -/
theorem c2_nonstatus_invalid_third_field (l l' f mid mid' t : Str) (et : ToErr)
    (hn : ('\n' : Char) ∉ l) (hb : byteSize l ≤ 65535)
    (hn' : ('\n' : Char) ∉ l') (hb' : byteSize l' ≤ 65535)
    (hfields : strFields (trimSpace l) = [f, mid, t])
    (hfields' : strFields (trimSpace l') = [f, mid', t])
    (hcm : f.head? ≠ some '#')
    (hstat : isLikelyStatusCode t = false)
    (hterr : parseTo t = .error et) :
    isNonQueryParseError (Parse (l ++ ['\n'])) = true ∧
    Parse (l ++ ['\n']) = Parse (l' ++ ['\n']) := by
  have key : ∀ (m : Str), processFields [f, m, t] =
      (match parseFrom f with
        | .error e0 => .fail (.parsingFrom e0)
        | .ok _ => .fail (.parsingTo et)) := by
    intro m
    unfold processFields
    rw [if_neg (by simp)]
    have hg0 : ([f, m, t] : List Str).getD 0 [] = f := rfl
    rw [hg0]
    cases hpf : parseFrom f with
    | error e0 => simp only
    | ok f0 =>
      simp only
      have hhs : hasStatusF [f, m, t] = false := hstat
      have hti : toIndexF [f, m, t] = 2 := by simp [toIndexF, hhs]
      rw [hti]
      have hg2 : ([f, m, t] : List Str).getD 2 [] = t := rfl
      rw [hg2]
      simp only [hterr]
  have hline : Parse (l ++ ['\n']) =
      liftLine (match parseFrom f with
        | .error e0 => .fail (.parsingFrom e0)
        | .ok _ => .fail (.parsingTo et)) := by
    rw [Parse_single_line l hn hb, processLine_of_fields l f [mid, t] hfields hcm, key mid]
  have hline' : Parse (l' ++ ['\n']) =
      liftLine (match parseFrom f with
        | .error e0 => .fail (.parsingFrom e0)
        | .ok _ => .fail (.parsingTo et)) := by
    rw [Parse_single_line l' hn' hb', processLine_of_fields l' f [mid', t] hfields' hcm,
      key mid']
  refine ⟨?_, by rw [hline, hline']⟩
  rw [hline]
  cases hpf : parseFrom f with
  | error e0 => rfl
  | ok f0 => rfl

theorem c2_witness :
    isNonQueryParseError (Parse (str "/a x=y 30x" ++ ['\n'])) = true ∧
    Parse (str "/a x=y 30x" ++ ['\n']) = Parse (str "/a zz 30x" ++ ['\n']) :=
  c2_nonstatus_invalid_third_field (str "/a x=y 30x") (str "/a zz 30x") (str "/a")
    (str "x=y") (str "zz") (str "30x") .scheme
    (by decide) (by decide) (by decide) (by decide) (by decide) (by decide)
    (by decide) (by decide) rfl

theorem get?_eq_some_getD {α : Type} :
    ∀ (xs : List α) (n : Nat) (d : α), n < xs.length → xs.get? n = some (xs.getD n d)
  | [], n, _, h => by simp at h
  | _ :: _, 0, _, _ => rfl
  | _ :: xs, n + 1, d, h => by
    have ih := get?_eq_some_getD xs n d (by simpa using h)
    simpa [List.get?, List.getD] using ih

/-! ## Claim C5: amended theorem -/

/-- C5 (amended): on a line with at least 3 fields whose `from` and
destination fields validate, a sniffed status token that `parseStatus`
rejects makes `Parse` report exactly that status error, wrapped with
`fields[2]` (which exists here); and whenever the status token ends in `!`
the rejection is the forced-redirect error, independent of the numeric part.
(For 2-field lines the same situation panics — see the counterexample — and
a line whose earlier fields fail validation reports those errors instead.) -/
theorem c5_status_token_errors (l : Str) (fs : List Str) (f0 t0 : Str) (se : StatusErr)
    (hn : ('\n' : Char) ∉ l) (hb : byteSize l ≤ 65535)
    (hfields : strFields (trimSpace l) = fs) (hlen : 3 ≤ fs.length)
    (hfrom : parseFrom (fs.getD 0 []) = .ok f0)
    (hto : parseTo (fs.getD (fs.length - 2) []) = .ok t0)
    (hstat : isLikelyStatusCode (fs.getD (fs.length - 1) []) = true)
    (hse : parseStatus (fs.getD (fs.length - 1) []) = .error se) :
    Parse (l ++ ['\n']) = .err (.parsingStatus (fs.getD 2 []) se) ∧
    ((fs.getD (fs.length - 1) []).getLast? = some '!' → se = .forced) := by
  obtain ⟨hf0, hslash, -⟩ := parseFrom_ok _ _ hfrom
  constructor
  · obtain ⟨f1, fs1, rfl⟩ : ∃ f1 fs1, fs = f1 :: fs1 := by
      cases fs with
      | nil => simp at hlen
      | cons a as => exact ⟨a, as, rfl⟩
    have hslash' : f1.head? = some '/' := hslash
    have hcm : f1.head? ≠ some '#' := by rw [hslash']; simp
    have hhs : hasStatusF (f1 :: fs1) = true := hstat
    have hti : toIndexF (f1 :: fs1) = (f1 :: fs1).length - 2 := by
      simp [toIndexF, hhs]
    have hget : (f1 :: fs1).get? 2 = some ((f1 :: fs1).getD 2 []) :=
      get?_eq_some_getD _ 2 [] (by omega)
    have hss : statusStage (f1 :: fs1) =
        .error (.fail (.parsingStatus ((f1 :: fs1).getD 2 []) se)) := by
      unfold statusStage
      rw [if_pos hhs]
      simp only [hse, hget]
    have hpf : processFields (f1 :: fs1) =
        .fail (.parsingStatus ((f1 :: fs1).getD 2 []) se) := by
      unfold processFields
      rw [if_neg (by omega)]
      simp only [hfrom]
      rw [hti]
      simp only [hto, hss]
    rw [Parse_single_line l hn hb, processLine_of_fields l f1 fs1 hfields hcm, hpf]
    rfl
  · intro hbang
    unfold parseStatus at hse
    rw [if_pos hbang] at hse
    injection hse with hse'
    exact hse'.symm

theorem c5_witness :
    Parse (str "/home / 301!" ++ ['\n']) =
      .err (.parsingStatus (str "301!") .forced) ∧
    Parse (str "/home / 42" ++ ['\n']) =
      .err (.parsingStatus (str "42") (.unsupported 42)) :=
  ⟨(c5_status_token_errors (str "/home / 301!") [str "/home", str "/", str "301!"]
      (str "/home") (str "/") .forced (by decide) (by decide) (by decide) (by decide)
      rfl rfl (by decide) rfl).1,
    (c5_status_token_errors (str "/home / 42") [str "/home", str "/", str "42"]
      (str "/home") (str "/") (.unsupported 42) (by decide) (by decide) (by decide)
      (by decide) rfl rfl (by decide) rfl).1⟩

/-! ## Claim C4 -/

theorem byteSize_replicate (n : Nat) (c : Char) :
    byteSize (List.replicate n c) = n * charBytes c := by
  induction n with
  | zero => simp
  | succ n ih =>
    rw [List.replicate_succ, byteSize_cons, ih]
    ring

theorem consumeToken_no_newline (rest : Str) (hn : ('\n' : Char) ∉ rest) :
    consumeToken rest = (rest, byteSize rest, []) := by
  have hp : ∀ x ∈ rest, notNewline x = true := by
    intro x hx
    unfold notNewline
    simp only [decide_eq_true_eq]
    exact fun hc => hn (hc ▸ hx)
  unfold consumeToken
  rw [List.takeWhile_eq_self_iff.mpr hp, List.dropWhile_eq_nil_iff.mpr ?_]
  intro x hx
  simpa [notNewline] using hp x hx

/-- A first line of 64 KiB or more bytes without a newline overflows the
scanner's token buffer before a token or EOF is seen: `Parse` returns
bufio's token-too-long error, not the size error. -/
theorem Parse_first_token_tokenTooLong (c : Char) (cs : Str)
    (hn : ('\n' : Char) ∉ (c :: cs)) (hbig : 65536 ≤ byteSize (c :: cs)) :
    Parse (c :: cs) = .err .tokenTooLong := by
  have hp : ∀ x ∈ (c :: cs), notNewline x = true := by
    intro x hx
    unfold notNewline
    simp only [decide_eq_true_eq]
    exact fun hc => hn (hc ▸ hx)
  have htk : (c :: cs).takeWhile notNewline = c :: cs :=
    List.takeWhile_eq_self_iff.mpr hp
  unfold Parse MaxFileSizeInBytes
  rw [show (65536 + 2 : Nat) = 65537 + 1 from rfl]
  rw [parseLoop]
  rw [if_pos ⟨by rw [htk]; unfold MaxScanTokenSize; omega,
    by unfold MaxScanTokenSize; omega⟩]

/-- The concrete oversized single line: a valid-looking 70009-byte rule line
with no newline is rejected with the scanner's token-too-long error. -/
theorem Parse_giant_single_line_tokenTooLong :
    Parse ('/' :: (List.replicate 70000 'a' ++ str " /to 301")) = .err .tokenTooLong := by
  have hnl : ('\n' : Char) ∉ ('/' :: (List.replicate 70000 'a' ++ str " /to 301")) := by
    have hlast : ('\n' : Char) ∉ str " /to 301" := by decide
    intro hmem
    rcases List.mem_cons.mp hmem with h1 | h2
    · exact absurd h1 (by decide)
    · rcases List.mem_append.mp h2 with h3 | h4
      · exact absurd (List.eq_of_mem_replicate h3) (by decide)
      · exact hlast h4
  refine Parse_first_token_tokenTooLong '/' _ hnl ?_
  rw [byteSize_cons, byteSize_append, byteSize_replicate]
  have h1 : charBytes '/' = 1 := by decide
  have h2 : charBytes 'a' = 1 := by decide
  have h3 : byteSize (str " /to 301") = 8 := by decide
  rw [h1, h2, h3]
  omega

theorem byteSize_flatten_replicate (n : Nat) (s : Str) :
    byteSize (List.flatten (List.replicate n s)) = n * byteSize s := by
  induction n with
  | zero => simp
  | succ n ih =>
    rw [List.replicate_succ, List.flatten_cons, byteSize_append, ih]
    ring

/-- On input made of copies of the valid 14-byte line `/from /to 301`, every
token is far below the scanner's cap, each line parses to a rule, and the
reader budget runs out strictly inside the input whenever it is at most the
bytes remaining — at which point the loop reports exactly the dedicated
size error. -/
theorem parseLoop_replicated_valid (fuel : Nat) :
    ∀ (n budget : Nat) (rules : List Rule),
      1 ≤ budget → budget ≤ 14 * n → budget ≤ fuel →
      parseLoop fuel (List.flatten (List.replicate n (str "/from /to 301\n")))
        budget rules = .err .tooLarge := by
  induction fuel with
  | zero => intro n budget rules h1 _ h3; omega
  | succ fuel ih =>
    intro n budget rules h1 h2 h3
    match n with
    | 0 => omega
    | n + 1 =>
      have hshape : List.flatten (List.replicate (n + 1) (str "/from /to 301\n")) =
          '/' :: (str "from /to 301\n" ++
            List.flatten (List.replicate n (str "/from /to 301\n"))) := by
        rw [List.replicate_succ, List.flatten_cons]
        rfl
      have htk : ('/' :: (str "from /to 301\n" ++
          List.flatten (List.replicate n (str "/from /to 301\n")))).takeWhile notNewline =
            str "/from /to 301" := rfl
      have hct : consumeToken ('/' :: (str "from /to 301\n" ++
          List.flatten (List.replicate n (str "/from /to 301\n")))) =
            (str "/from /to 301", 14,
              List.flatten (List.replicate n (str "/from /to 301\n"))) := rfl
      rw [hshape, parseLoop]
      have hguard : ¬(MaxScanTokenSize ≤ byteSize (('/' :: (str "from /to 301\n" ++
          List.flatten (List.replicate n (str "/from /to 301\n")))).takeWhile notNewline) ∧
            MaxScanTokenSize ≤ budget) := by
        intro hcontra
        rw [htk] at hcontra
        have hb13 : byteSize (str "/from /to 301") = 13 := by decide
        rw [hb13] at hcontra
        unfold MaxScanTokenSize at hcontra
        omega
      rw [if_neg hguard, hct]
      simp only
      by_cases hb0 : budget - 14 = 0
      · rw [if_pos hb0]
      · rw [if_neg hb0]
        have hpl : processLine (str "/from /to 301") =
            .rule { From := str "/from", FromQuery := [], To := str "/to", Status := 301 } := by
          decide
        rw [hpl]
        exact ih n (budget - 14) _ (by omega) (by omega) (by omega)

/-- C4 (amended): an input of at most 65536 bytes never draws the size
error; an input exceeding 65536 bytes never yields a rule list (no partial
parse, no silent truncation — though the error reported may be a line
error, the modelled panic, or the scanner's token-too-long error rather
than the size error); and an input exceeding the bound built from
otherwise-valid newline-terminated rule lines (the shape of the repo's own
size test: 5000 copies of `/from /to 301`, 70000 bytes) is rejected with
exactly the size error. -/
theorem c4_size_bound :
    (∀ input : Str, byteSize input ≤ MaxFileSizeInBytes →
      isTooLargeErr (Parse input) = false) ∧
    (∀ input : Str, MaxFileSizeInBytes < byteSize input →
      isOkResult (Parse input) = false) ∧
    Parse (List.flatten (List.replicate 5000 (str "/from /to 301\n"))) = .err .tooLarge := by
  refine ⟨?_, ?_, ?_⟩
  · intro input hle
    have hne : Parse input ≠ .err .tooLarge := by
      refine parseLoop_no_tooLarge _ input (MaxFileSizeInBytes + 1) [] ?_
      unfold MaxFileSizeInBytes at hle ⊢
      omega
    cases hp : Parse input with
    | err e =>
      cases e
      case tooLarge => exact absurd hp hne
      all_goals rfl
    | ok rules => rfl
    | outOfRange => rfl
    | fuelOut => rfl
  · intro input hgt
    have hne : ∀ rules, Parse input ≠ .ok rules := by
      intro rules
      refine parseLoop_no_ok _ input (MaxFileSizeInBytes + 1) [] rules (by omega) ?_
      unfold MaxFileSizeInBytes at hgt ⊢
      omega
    cases hp : Parse input with
    | err e => rfl
    | ok rules => exact absurd hp (hne rules)
    | outOfRange => rfl
    | fuelOut => rfl
  · unfold Parse MaxFileSizeInBytes
    exact parseLoop_replicated_valid (65536 + 2) 5000 (65536 + 1) [] (by omega) (by omega)
      (by omega)

theorem c4_witness :
    isTooLargeErr (Parse (str "x")) = false ∧
    isOkResult (Parse (List.replicate 65600 'a')) = false :=
  ⟨c4_size_bound.1 (str "x") (by decide),
    c4_size_bound.2.1 (List.replicate 65600 'a') (by
      rw [byteSize_replicate]
      have h2 : charBytes 'a' = 1 := by decide
      rw [h2]
      unfold MaxFileSizeInBytes
      omega)⟩

/-- C4 counterexample: the claim says every input longer than 65536 bytes
draws the dedicated size error.  On an oversized input whose first line is
`x` (a 1-field line), the loop processes that line before the budget is
exhausted and returns the missing-destination error instead. -/
theorem c4_counterexample :
    65536 < byteSize (str "x\n" ++ ('/' :: (List.replicate 70000 'a' ++ str " /to 301"))) ∧
    Parse (str "x\n" ++ ('/' :: (List.replicate 70000 'a' ++ str " /to 301"))) =
      .err .missingTo := by
  constructor
  · rw [byteSize_append, byteSize_cons, byteSize_append, byteSize_replicate]
    have h0 : byteSize (str "x\n") = 2 := by decide
    have h1 : charBytes '/' = 1 := by decide
    have h2 : charBytes 'a' = 1 := by decide
    have h3 : byteSize (str " /to 301") = 8 := by decide
    rw [h0, h1, h2, h3]
    omega
  · have happ : str "x\n" ++ ('/' :: (List.replicate 70000 'a' ++ str " /to 301")) =
        'x' :: '\n' :: ('/' :: (List.replicate 70000 'a' ++ str " /to 301")) := rfl
    rw [happ]
    unfold Parse MaxFileSizeInBytes
    rw [show (65536 + 2 : Nat) = 65537 + 1 from rfl]
    have hct : consumeToken ('x' :: '\n' :: ('/' :: (List.replicate 70000 'a' ++ str " /to 301"))) =
        (['x'], 2, '/' :: (List.replicate 70000 'a' ++ str " /to 301")) := rfl
    have htk : ('x' :: '\n' :: ('/' :: (List.replicate 70000 'a' ++
        str " /to 301"))).takeWhile notNewline = ['x'] := rfl
    rw [parseLoop]
    rw [if_neg (by
      intro hcontra
      rw [htk] at hcontra
      have hb1 : byteSize ['x'] = 1 := by decide
      rw [hb1] at hcontra
      unfold MaxScanTokenSize at hcontra
      omega)]
    rw [hct]
    simp only
    rw [if_neg (by omega)]
    have hpl : processLine ['x'] = .fail .missingTo := by decide
    rw [hpl]

/-! ## Claim C1 -/

/-- C1: the claim says a successful path match whose substituted destination
has no unresolved `:name` placeholder — only a colon from, e.g., an absolute
URL's scheme separator — still resolves.  The code instead rejects any
destination containing any colon: for the rule `/a → https://example.com/x`
(no placeholders anywhere) on the exactly-matching request path `/a`,
`MatchAndExpandPlaceholders` returns false and leaves the rule unchanged,
because the resolved destination `https://example.com/x` contains `:`. -/
theorem c1_absolute_url_destination_never_matches :
    MatchAndExpandPlaceholders
        { From := str "/a", FromQuery := [], To := str "https://example.com/x", Status := 301 }
        (str "/a") [] =
      (false,
        { From := str "/a", FromQuery := [], To := str "https://example.com/x", Status := 301 }) ∧
    (urlpathMatch (trimSuffixSlash (str "/a")) (str "/a")).isSome = true := by
  decide

/-! ## Claim C3 -/

/-- C3: the claim says every field index `Parse` uses is in bounds, in
particular the `fields[2]` read when a 2-field line's sniffed status token
fails status parsing.  On `/a 999` that read is out of range (the line has
two fields), so `Parse` panics instead of returning the unsupported-status
error: the model evaluates to the `outOfRange` outcome. -/
theorem c3_two_field_bad_status_out_of_range :
    Parse (str "/a 999\n") = .outOfRange := by
  decide

/-! ## Claim C10 -/

/-- C10: a rule with From `/a/*` matches request path `/a/x/y`, binding the
reserved name `splat` to `x/y` (the trailing path including its slash), and
with To `/out/:splat` the match succeeds with resolved destination
`/out/x/y`. -/
theorem c10_splat_binding_and_expansion :
    MatchAndExpandPlaceholders
        { From := str "/a/*", FromQuery := [], To := str "/out/:splat", Status := 301 }
        (str "/a/x/y") [] =
      (true,
        { From := str "/a/*", FromQuery := [], To := str "/out/x/y", Status := 301 }) ∧
    urlpathMatch (trimSuffixSlash (str "/a/*")) (str "/a/x/y") =
      some { Params := [], Trailing := str "x/y" } := by
  decide

/-! ## Claim C7 -/

/-- C7: whenever `MatchAndExpandPlaceholders` reports no match — whether the
path template fails, a query constraint fails, or an unresolved placeholder
remains in the destination — the rule is returned entirely unchanged; `To`
is overwritten only on a successful match. -/
theorem c7_no_match_leaves_rule_unchanged (r : Rule) (urlPath : Str)
    (urlParams : List (Str × List Str))
    (h : (MatchAndExpandPlaceholders r urlPath urlParams).1 = false) :
    (MatchAndExpandPlaceholders r urlPath urlParams).2 = r := by
  cases hm : urlpathMatch (trimSuffixSlash r.From) urlPath with
  | none => simp [MatchAndExpandPlaceholders, hm]
  | some m =>
    cases hmp : matchParams r.FromQuery urlParams (insertA m.Params (str "splat") m.Trailing) with
    | none => simp [MatchAndExpandPlaceholders, hm, hmp]
    | some ph =>
      by_cases hc : ':' ∈ replacePlaceholders r.To ph
      · simp [MatchAndExpandPlaceholders, hm, hmp, hc]
      · exfalso
        simp [MatchAndExpandPlaceholders, hm, hmp, hc] at h

theorem c7_witness :
    (MatchAndExpandPlaceholders
        { From := str "/x", FromQuery := [], To := str "/y", Status := 301 }
        (str "/z") []).2 =
      { From := str "/x", FromQuery := [], To := str "/y", Status := 301 } :=
  c7_no_match_leaves_rule_unchanged _ _ _ (by decide)

/-! ## Claim C6 -/

/-- C6: on every input on which `Parse` succeeds, every emitted rule has a
status in {200, 301, 302, 303, 307, 308, 404, 410, 451} and a `From` that
starts with `/`. -/
theorem c6_parse_success_invariants (input : Str) (rules : List Rule)
    (h : Parse input = .ok rules) :
    ∀ r ∈ rules,
      r.Status ∈ ([200, 301, 302, 303, 307, 308, 404, 410, 451] : List Nat) ∧
      r.From.head? = some '/' := by
  intro r hr
  unfold Parse at h
  obtain ⟨hv, hs⟩ :=
    parseLoop_ok_inv (MaxFileSizeInBytes + 2) input (MaxFileSizeInBytes + 1) [] rules
      (by intro r' hr'; cases hr') h r hr
  refine ⟨?_, hs⟩
  simp only [isValidStatusCode, Bool.or_eq_true, decide_eq_true_eq] at hv
  simp only [List.mem_cons, List.not_mem_nil, or_false]
  tauto

theorem c6_witness :
    ({ From := str "/a", FromQuery := [], To := str "/b", Status := 200 } : Rule).Status ∈
        ([200, 301, 302, 303, 307, 308, 404, 410, 451] : List Nat) ∧
      (str "/a").head? = some '/' :=
  c6_parse_success_invariants (str "/a /b 200\n")
    [{ From := str "/a", FromQuery := [], To := str "/b", Status := 200 }]
    (by decide) _ (by simp)

/-! ## Claim C2: counterexample -/

/-- C2 counterexample: the claim says every 3-field line whose third field
does not look like a status token is a parse error.  The line `/a x=y /b`
has exactly three whitespace-separated fields and its third field `/b` does
not match `^\d{1,3}!?$`, yet `Parse` succeeds — the third field becomes the
destination and the middle field is parsed as a fromQuery entry. -/
theorem c2_counterexample :
    Parse (str "/a x=y /b\n") =
      .ok [{ From := str "/a", FromQuery := [(str "x", str "y")],
             To := str "/b", Status := 301 }] ∧
    isLikelyStatusCode (str "/b") = false := by
  decide

/-! ## Claim C5: counterexample -/

/-- C5 counterexample: the claim says any line whose last field is a status
token ending in `!` draws the forced-redirect error.  On the 2-field line
`/a 301!` the code instead panics (the error wrap reads `fields[2]`, which
does not exist), and on `foo 301!` the `from` validation fails first, so the
returned error is about the `from` path, not about forced redirects. -/
theorem c5_counterexample :
    Parse (str "/a 301!\n") = .outOfRange ∧
    Parse (str "foo 301!\n") = .err (.parsingFrom .noLeadingSlash) := by
  decide

/-! ## Claim C9: counterexample -/

/-- C9 counterexample: the claim quantifies over every 2-field line whose
second field parses as a supported status.  On `a 404` the `from` validation
rejects the line (no leading slash), so `Parse` reports an error rather than
emitting a rule with `To = From`. -/
theorem c9_counterexample :
    Parse (str "a 404\n") = .err (.parsingFrom .noLeadingSlash) := by
  decide

/-! ## Claim C8 -/

theorem lookupA_insertA {α : Type} (m : List (Str × α)) (k : Str) (v : α) (key : Str) :
    lookupA (insertA m k v) key = if k = key then some v else lookupA m key := by
  induction m with
  | nil => by_cases h : k = key <;> simp [insertA, lookupA, h]
  | cons hd tl ih =>
    obtain ⟨k', v'⟩ := hd
    by_cases h1 : k' = k
    · subst h1
      by_cases h2 : k' = key <;> simp [insertA, lookupA, h2]
    · by_cases h2 : k' = key
      · subst h2
        have h3 : k ≠ k' := fun hh => h1 hh.symm
        simp [insertA, lookupA, h1, h3]
      · simp [insertA, lookupA, h1, h2, ih]

/-- C8 (amended): a name already bound (in particular by the path match,
whose bindings `matchParams` receives) is never re-bound by a query
placeholder — path bindings win; and a query placeholder constraint for an
unbound name binds it to the first value of that query key.  Which of two
query constraints sharing a placeholder name performs the binding is decided
by the iteration order of the `FromQuery` map (the list order here), which
Go leaves unspecified — not by the original fields' left-to-right order. -/
theorem c8_binding_precedence :
    (∀ (fromQuery : List (Str × Str)) (urlParams : List (Str × List Str))
        (placeholders ph' : List (Str × Str)) (name v : Str),
      lookupA placeholders name = some v →
      matchParams fromQuery urlParams placeholders = some ph' →
      lookupA ph' name = some v) ∧
    (∀ (k name : Str) (urlParams : List (Str × List Str))
        (placeholders : List (Str × Str)) (v : Str) (vs : List Str),
      lookupA placeholders name = none →
      lookupA urlParams k = some (v :: vs) →
      matchParams [(k, ':' :: name)] urlParams placeholders =
        some (insertA placeholders name v)) := by
  constructor
  · intro fromQuery
    induction fromQuery with
    | nil =>
      intro up ph ph' name v hl hm
      unfold matchParams at hm
      injection hm with hm'
      subst hm'
      exact hl
    | cons hd tl ih =>
      intro up ph ph' name v hl hm
      obtain ⟨neededK, neededV⟩ := hd
      unfold matchParams at hm
      cases hup : lookupA up neededK with
      | none => simp only [hup] at hm; cases hm
      | some haveVs =>
        simp only [hup] at hm
        by_cases hph : isPlaceholder neededV = true
        · rw [if_pos hph] at hm
          by_cases hbound : (lookupA ph (neededV.drop 1)).isSome = true
          · rw [if_pos hbound] at hm
            exact ih up ph ph' name v hl hm
          · rw [if_neg hbound] at hm
            refine ih up _ ph' name v ?_ hm
            rw [lookupA_insertA]
            split
            · rename_i hname
              subst hname
              rw [hl] at hbound
              simp at hbound
            · exact hl
        · rw [if_neg hph] at hm
          by_cases hcont : strListContains haveVs neededV = true
          · rw [if_pos hcont] at hm
            exact ih up ph ph' name v hl hm
          · rw [if_neg hcont] at hm; cases hm
  · intro k name up ph v vs hname hup
    unfold matchParams
    have hpl : isPlaceholder (':' :: name) = true := rfl
    have hdrop : (':' :: name).drop 1 = name := rfl
    simp only [hup, hpl, if_true, hdrop, hname, Option.isSome_none, Bool.false_eq_true,
      if_false]
    unfold matchParams
    rfl

theorem c8_witness :
    lookupA [(str "val", str "path")] (str "val") = some (str "path") ∧
    matchParams [(str "q", str ":t")] [(str "q", [str "photos"])] [] =
      some (insertA [] (str "t") (str "photos")) :=
  ⟨c8_binding_precedence.1 [(str "q", str ":val")] [(str "q", [str "qq"])]
      [(str "val", str "path")] [(str "val", str "path")] (str "val") (str "path")
      (by decide) (by decide),
    c8_binding_precedence.2 (str "q") (str "t") [(str "q", [str "photos"])] []
      (str "photos") [] (by decide) (by decide)⟩

/-- C8 counterexample: the claim says that when two `from_query` constraints
use the same placeholder name, the left-to-right order of the original
fields determines which one binds it.  `FromQuery` is a Go map, and
`matchParams` iterates it in the map's (unspecified) iteration order: the
two orderings of the same two-entry constraint map yield different resolved
destinations for the same request, so the outcome is decided by map
iteration order, which is not determined by the original field order. -/
theorem c8_counterexample :
    (MatchAndExpandPlaceholders
        { From := str "/from", FromQuery := [(str "q", str ":val"), (str "r", str ":val")],
          To := str "/:val.html", Status := 301 }
        (str "/from") [(str "q", [str "qq"]), (str "r", [str "rr"])]).2.To = str "/qq.html" ∧
    (MatchAndExpandPlaceholders
        { From := str "/from", FromQuery := [(str "r", str ":val"), (str "q", str ":val")],
          To := str "/:val.html", Status := 301 }
        (str "/from") [(str "q", [str "qq"]), (str "r", [str "rr"])]).2.To = str "/rr.html" ∧
    List.Perm [(str "q", str ":val"), (str "r", str ":val")]
      [(str "r", str ":val"), (str "q", str ":val")] := by
  refine ⟨by decide, by decide, ?_⟩
  exact List.Perm.swap _ _ _

end Redirects
